import Mathlib

/-!
Verification development for the `lmpsdat` LAMMPS data-file codec.

The Go sources are shallowly embedded: every definition below translates one
function or method of the repository (file and symbol indicated in each doc
comment).  Go `int` is modelled as `Int` (no overflow occurs for the inputs
considered), `float64` as the exact scaled decimal `F` (the code never
performs float arithmetic: it only parses, stores, compares and reprints
values; every concrete value used in this file is exactly representable in
binary64 and formatted the same way by Go's `%g`), Go maps `map[int]T` as
association lists with
insert-or-replace semantics, fallible code as `Except`, and a run-time panic
(nil-pointer dereference) as a distinguished error outcome `.nilDeref` that
aborts the whole operation.  Where Go iterates a hash map in unspecified
order, the model fixes an explicit deterministic order and the theorems only
draw conclusions that are order-independent or explicitly about a given order.
-/

namespace Lmpsdat

/-- Whitespace test used throughout (`unicode.IsSpace` restricted to the ASCII
whitespace actually occurring in the format: space, tab, CR, LF). -/
def isWS (c : Char) : Bool := c.isWhitespace

/-- `bytes.TrimLeftFunc(s, unicode.IsSpace)`. -/
def trimLeftWS (s : String) : String := String.mk (s.toList.dropWhile isWS)

/-- Accumulator loop for `fieldsOf`: `acc` is the current token, reversed. -/
def fieldsGo : List Char → List Char → List String
  | acc, [] => if acc = [] then [] else [String.mk acc.reverse]
  | acc, c :: rest =>
    if isWS c then
      if acc = [] then fieldsGo [] rest
      else String.mk acc.reverse :: fieldsGo [] rest
    else fieldsGo (c :: acc) rest

/-- `strings.Fields`: split around runs of whitespace, no empty fields. -/
def fieldsOf (s : String) : List String := fieldsGo [] s.toList

/-- `delComments` (part_001 / utils of package key): deletes everything that
is at and after the first "#". -/
def delComments (s : String) : String := String.mk (s.toList.takeWhile (· ≠ '#'))

/-- The part of `s` before its first whitespace character, and the rest of
`s` from that whitespace character on (`bytes.IndexFunc(s, unicode.IsSpace)`
returning `-1` is the `none` case). -/
def splitAtWS (s : String) : Option (String × String) :=
  let sp := s.toList.span (fun c => ¬ isWS c)
  if sp.2 = [] then none else some (String.mk sp.1, String.mk sp.2)

/-- `keyword` (part_001, package key): tests whether `s` begins with
`pre` after trimming the leading spaces (`bytes.HasPrefix` — a prefix test,
not an equality test). -/
def keyword (s pre : String) : Bool :=
  pre.toList.isPrefixOf (trimLeftWS s).toList

/-- Helper for `keywordHeader`: match the remaining words of the keyword
phrase, each introduced by a whitespace gap. -/
def keywordHeaderRest : List String → String → Bool
  | [], _ => true
  | p :: rest, s =>
    match splitAtWS s with
    | none => false
    | some (_, tail) =>
      let s' := trimLeftWS tail
      if p.toList.isPrefixOf s'.toList then keywordHeaderRest rest s' else false

/-- `keywordHeader` (part_001, package key): tests whether `s` begins with the
word sequence `pre` (each word a prefix test) after trimming spaces. -/
def keywordHeader (s : String) (pre : List String) : Bool :=
  match pre with
  | [] => false
  | p₀ :: rest =>
    let s := trimLeftWS s
    if p₀.toList.isPrefixOf s.toList then keywordHeaderRest rest s else false

/-- `strconv.Atoi` (restricted to the decimal forms the repository feeds it):
optional sign then one or more digits.  Overflow of Go's 64-bit int is not
modelled; no input considered here comes near it. -/
def parseInt? (s : String) : Option Int :=
  let cs := s.toList
  let sg : Int × List Char :=
    match cs with
    | '-' :: rest => (-1, rest)
    | '+' :: rest => (1, rest)
    | _ => (1, cs)
  if sg.2 = [] ∨ ¬ sg.2.all Char.isDigit then none
  else some (sg.1 * (Int.ofNat (sg.2.foldl (fun a c => a * 10 + (c.toNat - 48)) 0)))

/-- Digit-list value. -/
def digitsVal (ds : List Char) : Nat := ds.foldl (fun a c => a * 10 + (c.toNat - 48)) 0

/-- Exponent part of a float literal: `(e|E)[+-]?digits` then end of string. -/
def parseExp : List Char → Option Int
  | [] => some 0
  | c :: rest =>
    if c = 'e' ∨ c = 'E' then
      let sg : Int × List Char :=
        match rest with
        | '-' :: r => (-1, r)
        | '+' :: r => (1, r)
        | _ => (1, rest)
      if sg.2 = [] ∨ ¬ sg.2.all Char.isDigit then none
      else some (sg.1 * (Int.ofNat (digitsVal sg.2)))
    else none

/-- The carrier of `float64` values in this model: the exact scaled decimal
`num / 10 ^ exp`.  The codec performs no float arithmetic — values are
parsed from decimal literals, stored, compared, and reprinted — so an exact
decimal carrier reproduces the observable behaviour on every value that is
exactly representable in binary64 (all concrete values in this file are, and
Go's shortest-round-trip `%g` prints them as the same minimal decimal). -/
structure F where
  num : Int
  exp : Nat
deriving DecidableEq, Repr

/-- Integer literals as `F` values. -/
instance (n : Nat) : OfNat F n := ⟨⟨Int.ofNat n, 0⟩⟩

/-- Strict order test `a > b` by cross multiplication (denominators are
positive powers of ten). -/
def F.gtb (a b : F) : Bool := decide (b.num * (10 : Int) ^ a.exp < a.num * (10 : Int) ^ b.exp)

/-- Sign test `a < 0` (the denominator is positive). -/
def F.negb (a : F) : Bool := decide (a.num < 0)

/-- Build the value `sgn * mantissa * 10 ^ e / 10 ^ fpLen` from the parsed
mantissa digits, the fractional-digit count and the exponent. -/
def mkF (sgn : Int) (mantissa : Nat) (fpLen : Nat) (e : Int) : F :=
  if 0 ≤ e then ⟨sgn * (mantissa : Int) * (10 : Int) ^ e.toNat, fpLen⟩
  else ⟨sgn * (mantissa : Int), fpLen + (-e).toNat⟩

/-- `strconv.ParseFloat` (restricted to the finite decimal forms the
repository feeds it): `[+-]? digits [. digits] [(e|E)[+-]digits]`, at least one
digit in the mantissa.  `inf`, `NaN`, hexadecimal floats and digit-group
underscores are outside the modelled fragment; every value is kept exactly
(the concrete values used in this file are exactly representable in binary64,
so Go's rounding is the identity on them). -/
def parseFloat? (s : String) : Option F :=
  let cs := s.toList
  let sg : Int × List Char :=
    match cs with
    | '-' :: rest => (-1, rest)
    | '+' :: rest => (1, rest)
    | _ => (1, cs)
  let ip := sg.2.takeWhile Char.isDigit
  let afterInt := sg.2.dropWhile Char.isDigit
  match afterInt with
  | '.' :: r =>
    let fp := r.takeWhile Char.isDigit
    let rest := r.dropWhile Char.isDigit
    if ip = [] ∧ fp = [] then none
    else
      match parseExp rest with
      | none => none
      | some e => some (mkF sg.1 (digitsVal (ip ++ fp)) fp.length e)
  | rest =>
    if ip = [] then none
    else
      match parseExp rest with
      | none => none
      | some e => some (mkF sg.1 (digitsVal ip) 0 e)

/-- Zero-pad `s` on the left to width `w`. -/
def padZeros (s : String) (w : Nat) : String :=
  String.mk (List.replicate (w - s.length) '0') ++ s

/-- Strip trailing decimal zeros (recursion on the exponent). -/
def F.normGo : Int → Nat → F
  | m, 0 => ⟨m, 0⟩
  | m, e + 1 => if m % 10 = 0 then F.normGo (m / 10) e else ⟨m, e + 1⟩

/-- The minimal-exponent form of a value. -/
def F.norm (x : F) : F := F.normGo x.num x.exp

/-- Go's `%g` verb on the float values occurring in this development:
integer values print with no decimal point or exponent, other values as the
minimal fixed-point decimal (`%g` trims trailing zeros; the very large or
very small magnitudes where `%g` switches to exponent form never occur in
this file). -/
def fmtG (x : F) : String :=
  match F.norm x with
  | ⟨m, 0⟩ => toString m
  | ⟨m, e + 1⟩ =>
    let sgn := if m < 0 then "-" else ""
    let a := m.natAbs
    let p : Nat := 10 ^ (e + 1)
    sgn ++ toString (a / p) ++ "." ++ padZeros (toString (a % p)) (e + 1)

/-- The closed vocabulary of section identifiers (`key.Name` constants,
part_001). -/
inductive Name where
  | atomsNbr | bondsNbr | anglesNbr | dihedralsNbr
  | atomTypes | bondTypes | angleTypes | dihedralTypes
  | boxX | boxY | boxZ
  | masses
  | pairCoeffs | bondCoeffs | angleCoeffs | dihedralCoeffs
  | atoms | bonds | angles | dihedrals
  | title
deriving DecidableEq, Repr

/-- The literal text of each `Name` (the Go string constants). -/
def nameStr : Name → String
  | .atomsNbr => "atoms"
  | .bondsNbr => "bonds"
  | .anglesNbr => "angles"
  | .dihedralsNbr => "dihedrals"
  | .atomTypes => "atom types"
  | .bondTypes => "bond types"
  | .angleTypes => "angle types"
  | .dihedralTypes => "dihedral types"
  | .boxX => "xlo xhi"
  | .boxY => "ylo yhi"
  | .boxZ => "zlo zhi"
  | .masses => "Masses"
  | .pairCoeffs => "Pair Coeffs"
  | .bondCoeffs => "Bond Coeffs"
  | .angleCoeffs => "Angle Coeffs"
  | .dihedralCoeffs => "Dihedral Coeffs"
  | .atoms => "Atoms"
  | .bonds => "Bonds"
  | .angles => "Angles"
  | .dihedrals => "Dihedrals"
  | .title => "Title"

/-- The `Header` (Counter) variants. -/
def isCounterName : Name → Bool
  | .atomsNbr | .bondsNbr | .anglesNbr | .dihedralsNbr
  | .atomTypes | .bondTypes | .angleTypes | .dihedralTypes => true
  | _ => false

/-- The `Box` variants. -/
def isBoxName : Name → Bool
  | .boxX | .boxY | .boxZ => true
  | _ => false

/-- The `Coeffs` variants. -/
def isCoeffsName : Name → Bool
  | .pairCoeffs | .bondCoeffs | .angleCoeffs | .dihedralCoeffs => true
  | _ => false

/-- The `Links` variants. -/
def isLinksName : Name → Bool
  | .bonds | .angles | .dihedrals => true
  | _ => false

/-- The table (body) variants: Masses, the four Coeffs, Atoms, the three
Links tables. -/
def isTableName (n : Name) : Bool :=
  n = .masses ∨ isCoeffsName n ∨ n = .atoms ∨ isLinksName n

/-- `key.IsHeader` (utils.go): a Key is a header Key iff it is a `Header`
(Counter) or a `Box`. -/
def isHeaderKey (n : Name) : Bool := isCounterName n || isBoxName n

/-- `Keyword` of the table Keys (`Masses.Keyword`, `Coeffs.Keyword`,
`Atoms.Keyword`, `Links.Keyword` all delegate to `keyword` with the table's
Name as the prefix). -/
def tableKeyword (n : Name) (s : String) : Bool := keyword s (nameStr n)

/-- `Header.Keyword` (header.go): after trimming, the text before the first
whitespace is cached (`vBytes`, returned here) and the rest must begin with
the word sequence of the Name.  `none` models the `false` return. -/
def headerKeywordTry (s : String) (nameSep : List String) : Option String :=
  let s := trimLeftWS s
  match splitAtWS s with
  | none => none
  | some (vb, rest) => if keywordHeader rest nameSep then some vb else none

/-- `Box.Keyword` (title.go, type Box): two whitespace-terminated tokens are
cached, then the rest must begin with the word sequence of the Name. -/
def boxKeywordTry (s : String) (nameSep : List String) : Option (String × String) :=
  let s₁ := trimLeftWS s
  match splitAtWS s₁ with
  | none => none
  | some (v₁, r₁) =>
    let s₂ := trimLeftWS r₁
    match splitAtWS s₂ with
    | none => none
    | some (v₂, r₂) => if keywordHeader r₂ nameSep then some (v₁, v₂) else none

/-- `key.Atom` (part_002): per-atom record.  `N` gates the periodic-image
triple `NX NY NZ`. -/
structure Atom where
  MolTag : Int := 0
  AtomType : Int := 0
  Q : F := 0
  X : F := 0
  Y : F := 0
  Z : F := 0
  N : Bool := false
  NX : Int := 0
  NY : Int := 0
  NZ : Int := 0
deriving DecidableEq, Repr

/-- `key.Link` (links.go): type plus the ordered linked-atom identifiers. -/
structure Link where
  typ : Int
  links : List Int
deriving DecidableEq, Repr

/-- The two built-in atom styles (part_002). -/
inductive AtomStyle where
  | full
  | atomic
deriving DecidableEq, Repr

/-- Errors of the decode side.  `.nilDeref` is the run-time panic raised by a
write through a nil pointer; it aborts the whole operation. -/
inductive PErr where
  | nilDeref
  | msg (s : String)
deriving DecidableEq, Repr

/-- One step of Go's `atom.Field, err = strconv.Atoi(tok)` pattern where
`atom` has type `*Atom`: the write to `atom.Field` dereferences the pointer
first (a nil pointer panics), and only then is `err` examined. -/
def asgnInt (atom : Option Atom) (r : Option Int) (upd : Atom → Int → Atom)
    (m : String) : Except PErr (Option Atom) :=
  match atom with
  | none => .error .nilDeref
  | some a =>
    match r with
    | none => .error (.msg m)
    | some v => .ok (some (upd a v))

/-- `asgnInt` for a `float64` field. -/
def asgnFloat (atom : Option Atom) (r : Option F) (upd : Atom → F → Atom)
    (m : String) : Except PErr (Option Atom) :=
  match atom with
  | none => .error .nilDeref
  | some a =>
    match r with
    | none => .error (.msg m)
    | some v => .ok (some (upd a v))

/-- Writing a boolean constant into `atom.N` — still a dereference of the
pointer. -/
def asgnBool (atom : Option Atom) (v : Bool) (upd : Atom → Bool → Atom) :
    Except PErr (Option Atom) :=
  match atom with
  | none => .error .nilDeref
  | some a => .ok (some (upd a v))

/-- `atomStyleFull.Decode` (part_002).  The named return `atom *Atom` starts
as nil and is never allocated in the source, so the first field write
(`atom.MolTag`) dereferences nil; the remainder of the source is translated
anyway so the whole column layout is visible. -/
def atomStyleFullDecode (f : List String) : Except PErr (Int × Option Atom) := do
  let atom : Option Atom := none
  if f.length < 7 then
    throw (.msg "not enough fields, want >= 7")
  let id ← match parseInt? (f.getD 0 "") with
    | none => throw (.msg "strconv.Atoi id")
    | some i => pure i
  let atom ← asgnInt atom (parseInt? (f.getD 1 "")) (fun a v => { a with MolTag := v })
    "strconv.Atoi MolTag"
  let atom ← asgnInt atom (parseInt? (f.getD 2 "")) (fun a v => { a with AtomType := v })
    "strconv.Atoi AtomType"
  let atom ← asgnFloat atom (parseFloat? (f.getD 3 "")) (fun a v => { a with Q := v })
    "strconv.ParseFloat Q"
  let atom ← asgnFloat atom (parseFloat? (f.getD 4 "")) (fun a v => { a with X := v })
    "strconv.ParseFloat X"
  let atom ← asgnFloat atom (parseFloat? (f.getD 5 "")) (fun a v => { a with Y := v })
    "strconv.ParseFloat Y"
  let atom ← asgnFloat atom (parseFloat? (f.getD 6 "")) (fun a v => { a with Z := v })
    "strconv.ParseFloat Z"
  let atom ← asgnBool atom false (fun a v => { a with N := v })
  if f.length = 10 then
    let atom ← asgnBool atom true (fun a v => { a with N := v })
    let atom ← asgnInt atom (parseInt? (f.getD 7 "")) (fun a v => { a with NX := v })
      "strconv.Atoi NX"
    let atom ← asgnInt atom (parseInt? (f.getD 8 "")) (fun a v => { a with NY := v })
      "strconv.Atoi NY"
    let atom ← asgnInt atom (parseInt? (f.getD 9 "")) (fun a v => { a with NZ := v })
      "strconv.Atoi NZ"
    pure (id, atom)
  else
    pure (id, atom)

/-- `atomStyleAtomic.Decode` (part_002): same nil named return, columns
`id type x y z [nx ny nz]`. -/
def atomStyleAtomicDecode (f : List String) : Except PErr (Int × Option Atom) := do
  let atom : Option Atom := none
  if f.length < 5 then
    throw (.msg "not enough fields, want >= 5")
  let id ← match parseInt? (f.getD 0 "") with
    | none => throw (.msg "strconv.Atoi id")
    | some i => pure i
  let atom ← asgnInt atom (parseInt? (f.getD 1 "")) (fun a v => { a with AtomType := v })
    "strconv.Atoi AtomType"
  let atom ← asgnFloat atom (parseFloat? (f.getD 2 "")) (fun a v => { a with X := v })
    "strconv.ParseFloat X"
  let atom ← asgnFloat atom (parseFloat? (f.getD 3 "")) (fun a v => { a with Y := v })
    "strconv.ParseFloat Y"
  let atom ← asgnFloat atom (parseFloat? (f.getD 4 "")) (fun a v => { a with Z := v })
    "strconv.ParseFloat Z"
  let atom ← asgnBool atom false (fun a v => { a with N := v })
  if f.length = 8 then
    let atom ← asgnBool atom true (fun a v => { a with N := v })
    let atom ← asgnInt atom (parseInt? (f.getD 5 "")) (fun a v => { a with NX := v })
      "strconv.Atoi NX"
    let atom ← asgnInt atom (parseInt? (f.getD 6 "")) (fun a v => { a with NY := v })
      "strconv.Atoi NY"
    let atom ← asgnInt atom (parseInt? (f.getD 7 "")) (fun a v => { a with NZ := v })
      "strconv.Atoi NZ"
    pure (id, atom)
  else
    pure (id, atom)

/-- `AtomStyle.Decode` dispatch. -/
def atomStyleDecode : AtomStyle → List String → Except PErr (Int × Option Atom)
  | .full => atomStyleFullDecode
  | .atomic => atomStyleAtomicDecode

/-- `atomStyleFull.Encode` (part_002): `"%d %d %g %g %g %g"` over
MolTag, AtomType, Q, X, Y, Z. -/
def atomStyleFullEncode (a : Atom) : String :=
  toString a.MolTag ++ " " ++ toString a.AtomType ++ " " ++ fmtG a.Q ++ " " ++
  fmtG a.X ++ " " ++ fmtG a.Y ++ " " ++ fmtG a.Z

/-- `atomStyleAtomic.Encode` (part_002): `"%d %g %g %g"` over
AtomType, X, Y, Z. -/
def atomStyleAtomicEncode (a : Atom) : String :=
  toString a.AtomType ++ " " ++ fmtG a.X ++ " " ++ fmtG a.Y ++ " " ++ fmtG a.Z

/-- `AtomStyle.Encode` dispatch. -/
def atomStyleEncode : AtomStyle → Atom → String
  | .full => atomStyleFullEncode
  | .atomic => atomStyleAtomicEncode

/-- Go `map[int]α` as an association list with unique keys. -/
abbrev IMap (α : Type) := List (Int × α)

/-- `m[k] = v`: replace the binding if the key is present, append otherwise. -/
def minsert (m : IMap α) (k : Int) (v : α) : IMap α :=
  if m.any (fun p => p.1 = k) then m.map (fun p => if p.1 = k then (k, v) else p)
  else m ++ [(k, v)]

/-- Insert into a sorted list of keys. -/
def insSorted (x : Int) : List Int → List Int
  | [] => [x]
  | y :: ys => if x ≤ y then x :: y :: ys else y :: insSorted x ys

/-- `sortIntsMap` (part_001): the map's keys in increasing order. -/
def sortIntsMap (m : IMap α) : List Int := (m.map Prod.fst).foldr insSorted []

/-- Map lookup. -/
def mget (m : IMap α) (k : Int) : Option α := (m.find? (fun p => p.1 = k)).map Prod.snd

/-- `len` of a possibly-nil Go map (`len(nil) = 0`). -/
def mlen (m : Option (IMap α)) : Int := (m.getD []).length

/-- The mutable state of one Registry: the single shared `Header` (Counter)
instances live in `counter`, so a table Key reading its dependency reads the
same cell every other dependent reads (the Go code shares one `*Header`
pointer through `MakeKeys`).  Tables are `Option` to model Go's nil map. -/
structure Reg where
  titleV : String
  counter : Name → Int
  boxV : Name → F × F
  massesV : Option (IMap F)
  coeffsV : Name → Option (IMap (List F))
  atomsV : Option (IMap Atom)
  linksV : Name → Option (IMap Link)

/-- A freshly built Registry: Go zero values everywhere. -/
def Reg.init : Reg :=
  ⟨"", fun _ => 0, fun _ => (0, 0), none, fun _ => none, none, fun _ => none⟩

/-- Write one Counter cell. -/
def setCounter (r : Reg) (n : Name) (v : Int) : Reg :=
  { r with counter := fun m => if m = n then v else r.counter m }

/-- Write one Box cell. -/
def setBox (r : Reg) (n : Name) (v : F × F) : Reg :=
  { r with boxV := fun m => if m = n then v else r.boxV m }

/-- Write one Coeffs table. -/
def setCoeffs (r : Reg) (n : Name) (v : Option (IMap (List F))) : Reg :=
  { r with coeffsV := fun m => if m = n then v else r.coeffsV m }

/-- Write one Links table. -/
def setLinks (r : Reg) (n : Name) (v : Option (IMap Link)) : Reg :=
  { r with linksV := fun m => if m = n then v else r.linksV m }

/-- The dependency Names a Key's constructor wires in (`makeKeys.New`,
utils.go), listed before the Key itself is registered. -/
def depsOf : Name → List Name
  | .masses => [.atomTypes]
  | .pairCoeffs => [.atomTypes]
  | .bondCoeffs => [.bondTypes]
  | .angleCoeffs => [.angleTypes]
  | .dihedralCoeffs => [.dihedralTypes]
  | .atoms => [.atomTypes, .atomsNbr]
  | .bonds => [.atomsNbr, .bondsNbr, .bondTypes]
  | .angles => [.atomsNbr, .anglesNbr, .angleTypes]
  | .dihedrals => [.atomsNbr, .dihedralsNbr, .dihedralTypes]
  | _ => []

/-- Keep the first occurrence of every Name. -/
def dedupFirst : List Name → List Name
  | [] => []
  | x :: xs => x :: (dedupFirst xs).filter (· ≠ x)

/-- `MakeKeys` (utils.go): the requested Names plus, before each, its
dependency Names, memoized.  The Go map has no order; this list fixes a
deterministic one (dependencies first), which the theorems below rely on only
where the outcome is order-independent. -/
def keysClosure (req : List Name) : List Name :=
  dedupFirst (req.flatMap (fun n => depsOf n ++ [n]))

/-- The type-level dependency of each Coeffs table (`makeKeys.New`). -/
def coeffsTypesDep : Name → Name
  | .pairCoeffs => .atomTypes
  | .bondCoeffs => .bondTypes
  | .angleCoeffs => .angleTypes
  | _ => .dihedralTypes

/-- The row-count dependency of each Links table (`makeKeys.New`). -/
def linksNbrDep : Name → Name
  | .bonds => .bondsNbr
  | .angles => .anglesNbr
  | _ => .dihedralsNbr

/-- The type-count dependency of each Links table (`makeKeys.New`). -/
def linksTypesDep : Name → Name
  | .bonds => .bondTypes
  | .angles => .angleTypes
  | _ => .dihedralTypes

/-- `l.links`: required column count of each Links table (`NewLinks` adds 2
to the link arity). -/
def linksCols : Name → Nat
  | .bonds => 4
  | .angles => 5
  | _ => 6

/-- Validation errors; the constructors separate the kinds the spec names
(`CountMismatch`, `RangeViolation`, `InconsistentOptionalField`, the
non-negativity and lo≤hi scalar checks). -/
inductive CheckErr where
  | count
  | range
  | inconsistentN
  | negative
  | loHi
deriving DecidableEq, Repr

/-- `Header.Check` (header.go): the integer must be ≥ 0. -/
def headerCheck (v : Int) : Except CheckErr Unit :=
  if v < 0 then .error .negative else .ok ()

/-- `Box.Check` (title.go, type Box): lo must not exceed hi. -/
def boxCheck (lo hi : F) : Except CheckErr Unit :=
  if F.gtb lo hi then .error .loHi else .ok ()

/-- `Masses.Check` loop body order: mass sign first, then type range. -/
def massesCheckLoop (types : Int) : IMap F → Except CheckErr Unit
  | [] => .ok ()
  | (typ, mass) :: rest =>
    if F.negb mass then .error .negative
    else if typ < 1 ∨ typ > types then .error .range
    else massesCheckLoop types rest

/-- `Masses.Check` (masses.go): row count must equal the shared atom-type
count, every mass ≥ 0, every type in [1, atom types].  (The `types` Key is
always wired by `MakeKeys`, so the nil-dependency branch is not modelled.) -/
def massesCheck (types : Int) (v : Option (IMap F)) : Except CheckErr Unit :=
  if mlen v ≠ types then .error .count
  else massesCheckLoop types (v.getD [])

/-- `Coeffs.Check` loop. -/
def coeffsCheckLoop (types : Int) : IMap (List F) → Except CheckErr Unit
  | [] => .ok ()
  | (typ, _) :: rest =>
    if typ < 1 ∨ typ > types then .error .range
    else coeffsCheckLoop types rest

/-- `Coeffs.Check` (title.go, type Coeffs): row count equals the type count
and every type id in range. -/
def coeffsCheck (types : Int) (v : Option (IMap (List F))) : Except CheckErr Unit :=
  if mlen v ≠ types then .error .count
  else coeffsCheckLoop types (v.getD [])

/-- `Atoms.Check` loop: id range, then type range, then image-flag equality
against the reference `n` taken from the first iterated record. -/
def atomsCheckLoop (nbr types : Int) (n : Bool) : IMap Atom → Except CheckErr Unit
  | [] => .ok ()
  | (id, a) :: rest =>
    if id < 1 ∨ id > nbr then .error .range
    else if a.AtomType < 1 ∨ a.AtomType > types then .error .range
    else if a.N ≠ n then .error .inconsistentN
    else atomsCheckLoop nbr types n rest

/-- `Atoms.Check` (part_002): row count must equal the shared atom count;
then every id in [1, atom count], every type in [1, atom-type count], and the
image flag uniform (first record is the reference). -/
def atomsCheck (nbr types : Int) (v : Option (IMap Atom)) : Except CheckErr Unit :=
  if mlen v ≠ nbr then .error .count
  else if mlen v = 0 then .ok ()
  else
    match v.getD [] with
    | [] => .ok ()
    | (id₀, a₀) :: rest => atomsCheckLoop nbr types a₀.N ((id₀, a₀) :: rest)

/-- `Links.Check` loop: id range, type range, every linked atom id range. -/
def linksCheckLoop (nbr types atomsNbr : Int) : IMap Link → Except CheckErr Unit
  | [] => .ok ()
  | (id, l) :: rest =>
    if id < 1 ∨ id > nbr then .error .range
    else if l.typ < 1 ∨ l.typ > types then .error .range
    else if l.links.any (fun a => a < 1 ∨ a > atomsNbr) then .error .range
    else linksCheckLoop nbr types atomsNbr rest

/-- `Links.Check` (links.go): count, then per-row ranges. -/
def linksCheck (nbr types atomsNbr : Int) (v : Option (IMap Link)) :
    Except CheckErr Unit :=
  if mlen v ≠ nbr then .error .count
  else linksCheckLoop nbr types atomsNbr (v.getD [])

/-- `linksCheckLoop` checks links with `List.any`, whose order inside one row
matches the source's inner loop; the source aborts at the first bad atom id,
the model reports the same verdict. -/
def linksRowOk (nbr types atomsNbr : Int) (id : Int) (l : Link) : Prop :=
  1 ≤ id ∧ id ≤ nbr ∧ 1 ≤ l.typ ∧ l.typ ≤ types ∧
    ∀ a ∈ l.links, 1 ≤ a ∧ a ≤ atomsNbr

/-- One data line of `Masses.Decode` (masses.go): `strings.Fields(r.Text())`
— note: no `delComments` — then `Atoi` on field 0 and `ParseFloat` on
field 1; extra fields are ignored. -/
def massesRow (l : String) : Except PErr (Int × F) :=
  let f := fieldsOf l
  if f.length < 2 then .error (.msg "not enough fields, expected > 2")
  else
    match parseInt? (f.getD 0 "") with
    | none => .error (.msg "strconv.Atoi")
    | some typ =>
      match parseFloat? (f.getD 1 "") with
      | none => .error (.msg "strconv.ParseFloat")
      | some mass => .ok (typ, mass)

/-- Parse every field of a Coeffs row tail as a float, aborting at the first
failure. -/
def parseFloats : List String → Except PErr (List F)
  | [] => .ok []
  | t :: rest =>
    match parseFloat? t with
    | none => .error (.msg "strconv.ParseFloat")
    | some c =>
      match parseFloats rest with
      | .error e => .error e
      | .ok cs => .ok (c :: cs)

/-- One data line of `Coeffs.Decode` (title.go, type Coeffs): comments are
stripped (`delComments`) before splitting, then field 0 is the type and every
remaining field a coefficient. -/
def coeffsRow (l : String) : Except PErr (Int × List F) :=
  let f := fieldsOf (delComments l)
  if f.length < 2 then .error (.msg "not enough fields, want >= 2")
  else
    match parseInt? (f.getD 0 "") with
    | none => .error (.msg "strconv.Atoi type")
    | some typ =>
      match parseFloats (f.drop 1) with
      | .error e => .error e
      | .ok cs => .ok (typ, cs)

/-- One data line of `Atoms.Decode` (part_002): comments are stripped
(`delComments`) before splitting, then the atom style decodes the fields. -/
def atomsRow (style : AtomStyle) (l : String) : Except PErr (Int × Option Atom) :=
  atomStyleDecode style (fieldsOf (delComments l))

/-- Parse the linked-atom columns `f[2:cols]` of a Links row. -/
def parseLinkAtoms : List String → Except PErr (List Int)
  | [] => .ok []
  | t :: rest =>
    match parseInt? t with
    | none => .error (.msg "strconv.Atoi link")
    | some a =>
      match parseLinkAtoms rest with
      | .error e => .error e
      | .ok xs => .ok (a :: xs)

/-- One data line of `Links.Decode` (links.go): `strings.Fields(r.Text())`
— note: no `delComments` — needing at least `cols` fields; fields beyond
`cols` are ignored. -/
def linksRow (cols : Nat) (l : String) : Except PErr (Int × Link) :=
  let f := fieldsOf l
  if f.length < cols then .error (.msg "not enough fields")
  else
    match parseInt? (f.getD 0 "") with
    | none => .error (.msg "strconv.Atoi id")
    | some id =>
      match parseInt? (f.getD 1 "") with
      | none => .error (.msg "strconv.Atoi type")
      | some typ =>
        match parseLinkAtoms ((f.take cols).drop 2) with
        | .error e => .error e
        | .ok links => .ok (id, { typ := typ, links := links })

/-- Row loop of `Masses.Decode`: up to `count` data lines, stopping early at
end of stream.  Returns the filled map and the unconsumed lines. -/
def massesRows : Nat → List String → IMap F → Except PErr (IMap F × List String)
  | 0, lines, m => .ok (m, lines)
  | _ + 1, [], m => .ok (m, [])
  | k + 1, l :: rest, m =>
    match massesRow l with
    | .error e => .error e
    | .ok (typ, mass) => massesRows k rest (minsert m typ mass)

/-- `Masses.Decode` (masses.go): the map is allocated first, then the blank
separator line is scanned (end of stream here leaves the fresh empty map),
then up to `types` data lines are read. -/
def massesDecode (types : Int) (lines : List String) :
    Except PErr (Option (IMap F) × List String) :=
  match lines with
  | [] => .ok (some [], [])
  | _ :: rest =>
    match massesRows types.toNat rest [] with
    | .error e => .error e
    | .ok (m, rem) => .ok (some m, rem)

/-- Row loop of `Coeffs.Decode`. -/
def coeffsRows : Nat → List String → IMap (List F) →
    Except PErr (IMap (List F) × List String)
  | 0, lines, m => .ok (m, lines)
  | _ + 1, [], m => .ok (m, [])
  | k + 1, l :: rest, m =>
    match coeffsRow l with
    | .error e => .error e
    | .ok (typ, cs) => coeffsRows k rest (minsert m typ cs)

/-- `Coeffs.Decode` (title.go, type Coeffs): map allocated, blank line
scanned, then up to `types` data lines. -/
def coeffsDecode (types : Int) (lines : List String) :
    Except PErr (Option (IMap (List F)) × List String) :=
  match lines with
  | [] => .ok (some [], [])
  | _ :: rest =>
    match coeffsRows types.toNat rest [] with
    | .error e => .error e
    | .ok (m, rem) => .ok (some m, rem)

/-- Row loop of `Atoms.Decode`.  A successful style decode always returns an
allocated record (in fact the style decoders of this source panic before any
success), so the `none` record case re-raises the nil dereference that its
first use would cause. -/
def atomsRows (style : AtomStyle) : Nat → List String → IMap Atom →
    Except PErr (IMap Atom × List String)
  | 0, lines, m => .ok (m, lines)
  | _ + 1, [], m => .ok (m, [])
  | k + 1, l :: rest, m =>
    match atomsRow style l with
    | .error e => .error e
    | .ok (_, none) => .error .nilDeref
    | .ok (id, some a) => atomsRows style k rest (minsert m id a)

/-- `Atoms.Decode` (part_002): unlike the other tables, the blank separator
line is scanned *before* the map is allocated, so end of stream right after
the header leaves the table nil. -/
def atomsDecode (style : AtomStyle) (nbr : Int) (lines : List String) :
    Except PErr (Option (IMap Atom) × List String) :=
  match lines with
  | [] => .ok (none, [])
  | _ :: rest =>
    match atomsRows style nbr.toNat rest [] with
    | .error e => .error e
    | .ok (m, rem) => .ok (some m, rem)

/-- Row loop of `Links.Decode`. -/
def linksRows (cols : Nat) : Nat → List String → IMap Link →
    Except PErr (IMap Link × List String)
  | 0, lines, m => .ok (m, lines)
  | _ + 1, [], m => .ok (m, [])
  | k + 1, l :: rest, m =>
    match linksRow cols l with
    | .error e => .error e
    | .ok (id, lk) => linksRows cols k rest (minsert m id lk)

/-- `Links.Decode` (links.go): map allocated, blank line scanned, then up to
`nbr` data lines (the source reads the bound from its row-count dependency
Counter). -/
def linksDecode (cols : Nat) (nbr : Int) (lines : List String) :
    Except PErr (Option (IMap Link) × List String) :=
  match lines with
  | [] => .ok (some [], [])
  | _ :: rest =>
    match linksRows cols nbr.toNat rest [] with
    | .error e => .error e
    | .ok (m, rem) => .ok (some m, rem)

/-- Encode-side errors: only the nil-map guard of the table `Encode` methods
(stream write failures are not modelled — the sink is a string). -/
inductive EncE where
  | nilMap
deriving DecidableEq, Repr

/-- `Header.Encode` (header.go): `"%d %s\n"` — always writes its line,
whatever the value, zero included. -/
def headerEncode (n : Name) (v : Int) : String :=
  toString v ++ " " ++ nameStr n ++ "\n"

/-- `Box.Encode` (title.go, type Box): `"%g %g %s\n"`. -/
def boxEncode (n : Name) (lo hi : F) : String :=
  fmtG lo ++ " " ++ fmtG hi ++ " " ++ nameStr n ++ "\n"

/-- `Masses.Encode` (masses.go): nil map is an error; an empty map writes
nothing at all; otherwise the header, a blank line, and one `"%d %g\n"` row
per key in ascending order. -/
def massesEncode (v : Option (IMap F)) : Except EncE String :=
  match v with
  | none => .error .nilMap
  | some m =>
    if m.length = 0 then .ok ""
    else
      .ok ((nameStr .masses ++ "\n\n") ++ String.join ((sortIntsMap m).map (fun k =>
        match mget m k with
        | some mass => toString k ++ " " ++ fmtG mass ++ "\n"
        | none => "")))

/-- `Coeffs.Encode` (title.go, type Coeffs): same shape with a row
`"%d"` then `" %g"` per coefficient. -/
def coeffsEncode (n : Name) (v : Option (IMap (List F))) : Except EncE String :=
  match v with
  | none => .error .nilMap
  | some m =>
    if m.length = 0 then .ok ""
    else
      .ok ((nameStr n ++ "\n\n") ++ String.join ((sortIntsMap m).map (fun k =>
        match mget m k with
        | some cs => toString k ++ String.join (cs.map (fun c => " " ++ fmtG c)) ++ "\n"
        | none => "")))

/-- `Atoms.Encode` (part_002): nil map errors, empty map writes nothing,
otherwise header, blank line, and per row the id, the style columns, and the
image triple only when `N` is set. -/
def atomsEncode (style : AtomStyle) (v : Option (IMap Atom)) : Except EncE String :=
  match v with
  | none => .error .nilMap
  | some m =>
    if m.length = 0 then .ok ""
    else
      .ok ((nameStr .atoms ++ "\n\n") ++ String.join ((sortIntsMap m).map (fun k =>
        match mget m k with
        | some a =>
          toString k ++ " " ++ atomStyleEncode style a ++
            (if a.N then
              " " ++ toString a.NX ++ " " ++ toString a.NY ++ " " ++ toString a.NZ ++ "\n"
            else "\n")
        | none => "")))

/-- An argument passed to `SetKeys`: either a `*Header` instance carrying its
Name, or any Key of another concrete type (the type assertion to `*Header`
fails on it). -/
inductive KeyArg where
  | header (n : Name)
  | nonHeader
deriving DecidableEq, Repr

/-- Outcome kinds of the `SetKeys` methods. -/
inductive SKRes where
  | ok
  | errType
  | errName
  | errCount
  | unsupported
deriving DecidableEq, Repr

/-- `Links.SetKeys` (links.go): iterates the arguments, failing only when a
non-`*Header` Key appears; any count of Header Keys — zero included — is
accepted (each is routed to a slot by Name, which the result kind does not
observe). -/
def linksSetKeys : List KeyArg → SKRes
  | [] => .ok
  | .nonHeader :: _ => .errType
  | .header _ :: rest => linksSetKeys rest

/-- `Atoms.SetKeys` (part_002): every argument must be a `*Header` named
`NameAtomsNbr` or `NameAtomTypes`; any count is accepted. -/
def atomsSetKeys : List KeyArg → SKRes
  | [] => .ok
  | .nonHeader :: _ => .errType
  | .header n :: rest =>
    if n = .atomsNbr ∨ n = .atomTypes then atomsSetKeys rest else .errName

/-- `Masses.SetKeys` (masses.go): exactly one argument, a `*Header` named
`NameAtomTypes`. -/
def massesSetKeys (args : List KeyArg) : SKRes :=
  if args.length ≠ 1 then .errCount
  else
    match args.getD 0 .nonHeader with
    | .nonHeader => .errType
    | .header n => if n = .atomTypes then .ok else .errName

/-- `Coeffs.SetKeys` (title.go, type Coeffs): exactly one argument, a
`*Header`; the Name is not checked. -/
def coeffsSetKeys (args : List KeyArg) : SKRes :=
  if args.length ≠ 1 then .errCount
  else
    match args.getD 0 .nonHeader with
    | .nonHeader => .errType
    | .header _ => .ok

/-- `Title.SetKeys` (title.go): always `ErrUnsupported`, whatever the
arguments. -/
def titleSetKeys (_ : List KeyArg) : SKRes := .unsupported

/-- `Header.SetKeys` (header.go): always `ErrUnsupported`. -/
def headerSetKeys (_ : List KeyArg) : SKRes := .unsupported

/-- `Box.SetKeys` (title.go, type Box): always `ErrUnsupported`. -/
def boxSetKeys (_ : List KeyArg) : SKRes := .unsupported

/-- `Links.Encode` (links.go): header, blank line, and `"%d %d"` then one
`" %d"` per linked atom per row. -/
def linksEncode (n : Name) (v : Option (IMap Link)) : Except EncE String :=
  match v with
  | none => .error .nilMap
  | some m =>
    if m.length = 0 then .ok ""
    else
      .ok ((nameStr n ++ "\n\n") ++ String.join ((sortIntsMap m).map (fun k =>
        match mget m k with
        | some lk =>
          toString k ++ " " ++ toString lk.typ ++
            String.join (lk.links.map (fun a => " " ++ toString a)) ++ "\n"
        | none => "")))

/-- The variant-specific value shapes exchanged through `Set`/`Get` (the
`interface{}` boundary).  Table maps are `Option` because Go's `Get` can
return a nil map and `Set` accepts one. -/
inductive Value where
  | str (s : String)
  | int (i : Int)
  | pair (lo hi : F)
  | mmap (m : Option (IMap F))
  | cmap (m : Option (IMap (List F)))
  | amap (m : Option (IMap Atom))
  | lmap (m : Option (IMap Link))
deriving DecidableEq, Repr

/-- The dynamic type of a `Value` (what `reflect` sees at the boundary). -/
inductive VKind where
  | str | int | pair | mmap | cmap | amap | lmap
deriving DecidableEq, Repr

/-- `Value` to its `VKind`. -/
def vkind : Value → VKind
  | .str _ => .str
  | .int _ => .int
  | .pair _ _ => .pair
  | .mmap _ => .mmap
  | .cmap _ => .cmap
  | .amap _ => .amap
  | .lmap _ => .lmap

/-- The `Set` method of the Key named `n` (per-variant type assertion then
store); `none` is the type-assertion error. -/
def keySet (n : Name) (v : Value) (r : Reg) : Option Reg :=
  if isCounterName n then
    match v with
    | .int i => some (setCounter r n i)
    | _ => none
  else if isBoxName n then
    match v with
    | .pair lo hi => some (setBox r n (lo, hi))
    | _ => none
  else if isCoeffsName n then
    match v with
    | .cmap m => some (setCoeffs r n m)
    | _ => none
  else if isLinksName n then
    match v with
    | .lmap m => some (setLinks r n m)
    | _ => none
  else
    match n, v with
    | .masses, .mmap m => some { r with massesV := m }
    | .atoms, .amap m => some { r with atomsV := m }
    | .title, .str s => some { r with titleV := s }
    | _, _ => none

/-- The `Get` method of the Key named `n`. -/
def keyGet (n : Name) (r : Reg) : Value :=
  if isCounterName n then .int (r.counter n)
  else if isBoxName n then .pair (r.boxV n).1 (r.boxV n).2
  else if isCoeffsName n then .cmap (r.coeffsV n)
  else if isLinksName n then .lmap (r.linksV n)
  else
    match n with
    | .masses => .mmap r.massesV
    | .atoms => .amap r.atomsV
    | _ => .str r.titleV

/-- The `SetKeysVal` method of the Key named `n`: tables push the length of
their map into their count dependency Counter; `none` models the
`ErrUnsupported` sentinel of Title, Header and Box.  (The dependency Keys are
always wired by `MakeKeys`, so the nil-dependency error branch cannot fire in
the pipeline.) -/
def keySetKeysVal (n : Name) (r : Reg) : Option Reg :=
  if isCoeffsName n then some (setCounter r (coeffsTypesDep n) (mlen (r.coeffsV n)))
  else if isLinksName n then some (setCounter r (linksNbrDep n) (mlen (r.linksV n)))
  else
    match n with
    | .masses => some (setCounter r .atomTypes (mlen r.massesV))
    | .atoms => some (setCounter r .atomsNbr (mlen r.atomsV))
    | _ => none

/-- The `Check` method of the Key named `n`, reading its dependency Counters
from the shared cells of the Registry. -/
def keyCheck (n : Name) (r : Reg) : Except CheckErr Unit :=
  if isCounterName n then headerCheck (r.counter n)
  else if isBoxName n then boxCheck (r.boxV n).1 (r.boxV n).2
  else if isCoeffsName n then coeffsCheck (r.counter (coeffsTypesDep n)) (r.coeffsV n)
  else if isLinksName n then
    linksCheck (r.counter (linksNbrDep n)) (r.counter (linksTypesDep n))
      (r.counter .atomsNbr) (r.linksV n)
  else
    match n with
    | .masses => massesCheck (r.counter .atomTypes) r.massesV
    | .atoms => atomsCheck (r.counter .atomsNbr) (r.counter .atomTypes) r.atomsV
    | _ => .ok ()

/-- The end-of-operation validation pass: `Check` on every Key, first failure
aborts with the Key's Name attached.  (The source iterates a Go map; the list
order here is the deterministic closure order — whether *some* Check fails is
order-independent, and no theorem below depends on which Name is reported.) -/
def checksPass : List Name → Reg → Except (Name × CheckErr) Unit
  | [], _ => .ok ()
  | n :: rest, r =>
    match keyCheck n r with
    | .error e => .error (n, e)
    | .ok _ => checksPass rest r

/-- Errors of `Decoder.Decode` (decode.go), each wrapped with the offending
Key's Name as the source does: an error (or panic) from a Key's `Decode`, a
failed end-of-stream `Check`, or a non-assignable value in the final
field-assignment loop. -/
inductive DErr where
  | decodeE (n : Name) (e : PErr)
  | checkE (n : Name) (e : CheckErr)
  | assignE (n : Name)
deriving DecidableEq, Repr

/-- The `Keyword`-then-`Decode` step for one header Key on one line
(`Header`/`Box`): `none` when `Keyword` is false; otherwise the decode of the
substrings the match cached.  Header keys consume no further lines. -/
def headerTry (n : Name) (l : String) (r : Reg) : Option (Except DErr Reg) :=
  if isCounterName n then
    match headerKeywordTry l (fieldsOf (nameStr n)) with
    | none => none
    | some vb =>
      some (match parseInt? vb with
        | none => .error (.decodeE n (.msg "strconv.Atoi"))
        | some v => .ok (setCounter r n v))
  else if isBoxName n then
    match boxKeywordTry l (fieldsOf (nameStr n)) with
    | none => none
    | some (b₁, b₂) =>
      some (match parseFloat? b₁ with
        | none => .error (.decodeE n (.msg "strconv.ParseFloat lo"))
        | some lo =>
          match parseFloat? b₂ with
          | none => .error (.decodeE n (.msg "strconv.ParseFloat hi"))
          | some hi => .ok (setBox r n (lo, hi)))
  else none

/-- `keyDecode` over the header pool: first Key whose `Keyword` accepts the
line decodes it.  Returns the matched Name so the caller can remove it. -/
def tryKeysHeader : List Name → String → Reg → Option (Name × Except DErr Reg)
  | [], _, _ => none
  | n :: rest, l, r =>
    match headerTry n l r with
    | some res => some (n, res)
    | none => tryKeysHeader rest l r

/-- The `Keyword`-then-`Decode` step for one body Key on one line: a table
whose literal header text begins the line decodes the following lines from
the stream (`Title.Keyword` is always false, so a requested Title never
matches here). -/
def bodyTry (style : AtomStyle) (n : Name) (l : String) (rest : List String)
    (r : Reg) : Option (Except DErr (Reg × List String)) :=
  if n = .title then none
  else if tableKeyword n l then
    some (
      if isCoeffsName n then
        match coeffsDecode (r.counter (coeffsTypesDep n)) rest with
        | .error e => .error (.decodeE n e)
        | .ok (m, rem) => .ok (setCoeffs r n m, rem)
      else if isLinksName n then
        match linksDecode (linksCols n) (r.counter (linksNbrDep n)) rest with
        | .error e => .error (.decodeE n e)
        | .ok (m, rem) => .ok (setLinks r n m, rem)
      else
        match n with
        | .masses =>
          match massesDecode (r.counter .atomTypes) rest with
          | .error e => .error (.decodeE n e)
          | .ok (m, rem) => .ok ({ r with massesV := m }, rem)
        | _ =>
          match atomsDecode style (r.counter .atomsNbr) rest with
          | .error e => .error (.decodeE n e)
          | .ok (m, rem) => .ok ({ r with atomsV := m }, rem))
  else none

/-- `keyDecode` over the body pool. -/
def tryKeysBody (style : AtomStyle) : List Name → String → List String → Reg →
    Option (Name × Except DErr (Reg × List String))
  | [], _, _, _ => none
  | n :: rest, l, str, r =>
    match bodyTry style n l str r with
    | some res => some (n, res)
    | none => tryKeysBody style rest l str r

/-- The header/body line loop of `Decoder.Decode` (decode.go).  While
`inHeader`, the line is first tested against the unconsumed header pool; a
match decodes in place and stays in the header phase.  Otherwise the line
falls through to the body pool; a body match decodes the section (consuming
further lines) and leaves the header phase for good.  A line matching
nothing is skipped.  `fuel` bounds the iterations; every iteration consumes
at least one line, so `fuel := lines.length` makes the bound unreachable. -/
def decodeLoop (style : AtomStyle) : Nat → List Name → List Name → Bool →
    List String → Reg → Except DErr Reg
  | 0, _, _, _, _, r => .ok r
  | _ + 1, _, _, _, [], r => .ok r
  | fuel + 1, kH, kB, inH, l :: rest, r =>
    match (if inH then tryKeysHeader kH l r else none) with
    | some (_, .error e) => .error e
    | some (n, .ok r') => decodeLoop style fuel (kH.filter (· ≠ n)) kB inH rest r'
    | none =>
      match tryKeysBody style kB l rest r with
      | some (_, .error e) => .error e
      | some (n, .ok (r', rest')) =>
        decodeLoop style fuel kH (kB.filter (· ≠ n)) false rest' r'
      | none => decodeLoop style fuel kH kB inH rest r

/-- Result of `Decoder.Decode`: the error if any, the destination struct
fields (each requested Name with its declared field type and current value),
and whether the end-of-stream validation pass was entered. -/
structure DecOut where
  err : Option DErr
  dst : List (Name × VKind × Value)
  checksRun : Bool
deriving DecidableEq, Repr

/-- Replace the value of the destination field bound to `n`. -/
def dstUpdate (dst : List (Name × VKind × Value)) (n : Name) (v : Value) :
    List (Name × VKind × Value) :=
  dst.map (fun e => if e.1 = n then (e.1, e.2.1, v) else e)

/-- The final loop of `Decoder.Decode`: `Get` each requested Key and assign
into the struct field, aborting at the first non-assignable value (fields
assigned before the abort keep their new values, as in the source). -/
def assignLoop : List (Name × VKind) → Reg → List (Name × VKind × Value) → DecOut
  | [], _, dst => ⟨none, dst, true⟩
  | (n, k) :: rest, r, dst =>
    let v := keyGet n r
    if vkind v = k then assignLoop rest r (dstUpdate dst n v)
    else ⟨some (.assignE n), dst, true⟩

/-- `Decoder.Decode` (decode.go) over a line stream.  `req` is the requested
Name list with each struct field's declared type (what `createNames`
extracts); `dst` is the destination struct.  An empty stream returns
immediately with success: no Key is checked and no field is assigned.
Otherwise the first line is the title (stored only if Title was requested),
the line loop fills the Registry, the validation pass runs, and only then are
the struct fields assigned. -/
def decodeLines (req : List (Name × VKind)) (style : AtomStyle)
    (lines : List String) (dst : List (Name × VKind × Value)) : DecOut :=
  match lines with
  | [] => ⟨none, dst, false⟩
  | first :: rest =>
    let ks := keysClosure (req.map Prod.fst)
    let r₀ := Reg.init
    let r₁ := if ks.any (· = .title) then { r₀ with titleV := first } else r₀
    let kH := ks.filter isHeaderKey
    let kB := ks.filter (fun n => ¬ isHeaderKey n)
    match decodeLoop style rest.length kH kB true rest r₁ with
    | .error e => ⟨some e, dst, false⟩
    | .ok r₂ =>
      match checksPass ks r₂ with
      | .error (n, e) => ⟨some (.checkE n e), dst, true⟩
      | .ok _ => assignLoop req r₂ dst

/-- Errors of `Encoder.Encode` (part_001). -/
inductive EncErr where
  | setE (n : Name)
  | checkE (n : Name) (e : CheckErr)
  | encE (n : Name) (e : EncE)
deriving DecidableEq, Repr

/-- The assignment pass of `Encoder.Encode` (part_001): for each requested
field, `Set` the value into its Key and immediately call `SetKeysVal`,
ignoring the `ErrUnsupported` sentinel.  The two calls are interleaved per
field in a single loop — `SetKeysVal` is *not* deferred until all `Set`s are
done.  (The source iterates the `nFields` Go map in unspecified order; the
order is the explicit list order here.) -/
def encAssign : List (Name × Value) → Reg → Except EncErr Reg
  | [], r => .ok r
  | (n, v) :: rest, r =>
    match keySet n v r with
    | none => .error (.setE n)
    | some r₁ => encAssign rest ((keySetKeysVal n r₁).getD r₁)

/-- `Encode` of the Key named `n` into a string sink. -/
def keyEncode (style : AtomStyle) (n : Name) (r : Reg) : Except EncE String :=
  if isCounterName n then .ok (headerEncode n (r.counter n))
  else if isBoxName n then .ok (boxEncode n (r.boxV n).1 (r.boxV n).2)
  else if isCoeffsName n then coeffsEncode n (r.coeffsV n)
  else if isLinksName n then linksEncode n (r.linksV n)
  else
    match n with
    | .masses => massesEncode r.massesV
    | .atoms => atomsEncode style r.atomsV
    | _ => .ok (r.titleV ++ "\n")

/-- One scalar group of the encoder: encode each present Name of the group in
order, and append one blank line after the group iff at least one member was
present (`set` flag of the source). -/
def encodeGroupGo (style : AtomStyle) (r : Reg) (ks : List Name) :
    List Name → String → Bool → Except EncErr (String × Bool)
  | [], out, set => .ok (out, set)
  | n :: rest, out, set =>
    if ks.any (· = n) then
      match keyEncode style n r with
      | .error e => .error (.encE n e)
      | .ok s => encodeGroupGo style r ks rest (out ++ s) true
    else encodeGroupGo style r ks rest out set

/-- One scalar group with its trailing blank line. -/
def encodeGroup (style : AtomStyle) (r : Reg) (ks : List Name)
    (group : List Name) : Except EncErr String :=
  match encodeGroupGo style r ks group "" false with
  | .error e => .error e
  | .ok (out, set) => .ok (if set then out ++ "\n" else out)

/-- The table block of the encoder: each present table encodes and is
followed by one blank line — the blank line is written even when the table's
own encode wrote nothing (empty collection). -/
def encodeTables (style : AtomStyle) (r : Reg) (ks : List Name) :
    List Name → String → Except EncErr String
  | [], out => .ok out
  | n :: rest, out =>
    if ks.any (· = n) then
      match keyEncode style n r with
      | .error e => .error (.encE n e)
      | .ok s => encodeTables style r ks rest (out ++ s ++ "\n")
    else encodeTables style r ks rest out

/-- `Encoder.Encode` (part_001): assign + propagate per field, validate every
Key, then write the title line and blank line, the count Counters, the type
Counters, the box dimensions (each group with one trailing blank line when
non-empty), and the tables in canonical order. -/
def encodeFields (fields : List (Name × Value)) (style : AtomStyle) :
    Except EncErr String :=
  let ks := keysClosure (fields.map Prod.fst)
  match encAssign fields Reg.init with
  | .error e => .error e
  | .ok r =>
    match checksPass ks r with
    | .error (n, e) => .error (.checkE n e)
    | .ok _ =>
      let title := if ks.any (· = .title) then r.titleV else ""
      match encodeGroup style r ks [.atomsNbr, .bondsNbr, .anglesNbr, .dihedralsNbr] with
      | .error e => .error e
      | .ok g₁ =>
        match encodeGroup style r ks [.atomTypes, .bondTypes, .angleTypes, .dihedralTypes] with
        | .error e => .error e
        | .ok g₂ =>
          match encodeGroup style r ks [.boxX, .boxY, .boxZ] with
          | .error e => .error e
          | .ok g₃ =>
            encodeTables style r ks
              [.masses, .pairCoeffs, .bondCoeffs, .angleCoeffs, .dihedralCoeffs,
               .atoms, .bonds, .angles, .dihedrals]
              (title ++ "\n\n" ++ g₁ ++ g₂ ++ g₃)

/-- Split on newline characters, keeping empty pieces (accumulator holds the
current line, reversed). -/
def splitNlGo : List Char → List Char → List String
  | acc, [] => [String.mk acc.reverse]
  | acc, c :: rest =>
    if c = '\n' then String.mk acc.reverse :: splitNlGo [] rest
    else splitNlGo (c :: acc) rest

/-- `bufio.Scanner` with `ScanLines` over a whole string: the newline-split
lines, without a trailing empty token when the text ends in a newline (and no
line at all for the empty text). -/
def splitLines (s : String) : List String :=
  if s = "" then []
  else
    let ps := splitNlGo [] s.toList
    match ps.getLast? with
    | some "" => ps.dropLast
    | _ => ps

/-! Example values used by the concrete evaluations below. -/

/-- A well-formed atom record: molecule tag 1, type 1, all coordinates and
the charge 0, no image triple. -/
def oneAtom : Atom := { MolTag := 1, AtomType := 1 }

/-- A registry filling that passes every validation: `Masses = {1: 1.0}` and
`Atoms = {1: oneAtom}` (atom style `full`); the atom-count and atom-type
Counters are propagated to 1 by `SetKeysVal`. -/
def rtFields : List (Name × Value) :=
  [(.masses, .mmap (some [(1, 1)])), (.atoms, .amap (some [(1, oneAtom)]))]

/-- The requested-Name set matching `rtFields`, with the struct field
types. -/
def rtReq : List (Name × VKind) := [(.masses, .mmap), (.atoms, .amap)]

/-- The destination struct for the round trip, fields initially nil maps. -/
def rtDst : List (Name × VKind × Value) :=
  [(.masses, .mmap, .mmap none), (.atoms, .amap, .amap none)]

/-! Helper lemmas. -/

/-- Decidable equality on `Except`, needed to evaluate the codec's fallible
results in the closed theorems below. -/
instance {ε α : Type} [DecidableEq ε] [DecidableEq α] : DecidableEq (Except ε α) :=
  fun x y =>
    match x, y with
    | .ok a, .ok b =>
      if h : a = b then isTrue (by rw [h]) else isFalse (by simp [h])
    | .error a, .error b =>
      if h : a = b then isTrue (by rw [h]) else isFalse (by simp [h])
    | .ok _, .error _ => isFalse (by simp)
    | .error _, .ok _ => isFalse (by simp)

/-- `takeWhile` is idempotent. -/
theorem takeWhile_self_idem (p : Char → Bool) (l : List Char) :
    (l.takeWhile p).takeWhile p = l.takeWhile p := by
  induction l with
  | nil => rfl
  | cons a l ih =>
    by_cases h : p a <;> simp [List.takeWhile_cons, h, ih]

/-- Stripping comments twice is the same as stripping once. -/
theorem delComments_idem (s : String) :
    delComments (delComments s) = delComments s := by
  unfold delComments
  exact congrArg String.mk (takeWhile_self_idem _ s.toList)

/-- The success condition of the `Atoms.Check` loop: every record in range
and every image flag equal to the reference. -/
theorem atomsCheckLoop_ok_iff (nbr types : Int) (n : Bool) (l : IMap Atom) :
    atomsCheckLoop nbr types n l = .ok () ↔
      ∀ p ∈ l, (1 ≤ p.1 ∧ p.1 ≤ nbr) ∧
        (1 ≤ p.2.AtomType ∧ p.2.AtomType ≤ types) ∧ p.2.N = n := by
  induction l with
  | nil => simp [atomsCheckLoop]
  | cons hd tl ih =>
    obtain ⟨id, a⟩ := hd
    simp only [atomsCheckLoop]
    split_ifs with h₁ h₂ h₃
    · refine iff_of_false (by simp) ?_
      intro h
      rcases h (id, a) (List.mem_cons_self _ _) with ⟨⟨u₁, u₂⟩, _, _⟩
      dsimp only at u₁ u₂
      omega
    · refine iff_of_false (by simp) ?_
      intro h
      rcases h (id, a) (List.mem_cons_self _ _) with ⟨_, ⟨u₁, u₂⟩, _⟩
      dsimp only at u₁ u₂
      omega
    · refine iff_of_false (by simp) ?_
      intro h
      rcases h (id, a) (List.mem_cons_self _ _) with ⟨_, _, u⟩
      dsimp only at u
      exact h₃ u
    · rw [ih]
      constructor
      · intro h p hp
        rcases List.mem_cons.mp hp with h' | h'
        · subst h'
          show (1 ≤ id ∧ id ≤ nbr) ∧ (1 ≤ a.AtomType ∧ a.AtomType ≤ types) ∧ a.N = n
          refine ⟨⟨by omega, by omega⟩, ⟨by omega, by omega⟩, by simpa using h₃⟩
        · exact h p h'
      · intro h p hp
        exact h p (List.mem_cons_of_mem _ hp)

/-- An error from the final assignment loop of `Decoder.Decode` is always an
assignability error. -/
theorem assignLoop_err (req : List (Name × VKind)) (r : Reg)
    (dst : List (Name × VKind × Value)) :
    ∀ e, (assignLoop req r dst).err = some e → ∃ n, e = DErr.assignE n := by
  induction req generalizing dst with
  | nil => intro e h; simp [assignLoop] at h
  | cons hd rest ih =>
    obtain ⟨n, k⟩ := hd
    intro e h
    simp only [assignLoop] at h
    split_ifs at h with hk
    · exact ih _ e h
    · simp only [Option.some.injEq] at h
      exact ⟨n, h.symm⟩

/-! Claim theorems. -/

/-- C2: the claim says `AtomStyle.Decode` on a token list of at least the
style's minimum whose tokens parse returns the id and the reconstructed
record without error.  The code cannot: its named return `atom *Atom` is
never allocated, so the first field write dereferences nil and panics.  On
the canonical well-formed seven-token (full) and five-token (atomic) rows the
model returns the nil-dereference outcome; the fewer-than-minimum branch does
error as claimed. -/
theorem c2_decode_nil_panic :
    atomStyleFullDecode ["1", "1", "1", "0.0", "0.5", "0.5", "0.5"] =
      .error .nilDeref ∧
    atomStyleFullDecode ["1", "1", "1", "0.0", "0.5", "0.5", "0.5", "1", "0", "2"] =
      .error .nilDeref ∧
    atomStyleAtomicDecode ["1", "1", "0.5", "0.5", "0.5"] = .error .nilDeref ∧
    atomStyleFullDecode ["1", "1", "1", "0.0", "0.5", "0.5"] =
      .error (.msg "not enough fields, want >= 7") ∧
    atomStyleAtomicDecode ["1", "2", "3", "4"] =
      .error (.msg "not enough fields, want >= 5") := by
  refine ⟨rfl, rfl, rfl, by decide, by decide⟩

/-- C4 counterexample: the claim says a line whose text merely begins with
the table's Name followed by other text does not match; `keyword` is a prefix
test, so "Massesfoo" — whose trimmed text is not exactly "Masses" — does
match the Masses Key. -/
theorem c4_cex_prefix_matches :
    tableKeyword .masses "Massesfoo" = true ∧
    trimLeftWS "Massesfoo" ≠ nameStr .masses := by
  exact ⟨by decide, by decide⟩

/-- C4 amended: for every table Key, `Keyword` matches a line iff the line's
text after discarding leading whitespace begins with the table's Name — any
trailing text, comment or not, is accepted. -/
theorem c4_keyword_is_prefix_match (n : Name) (s : String) :
    tableKeyword n s = true ↔ ∃ t : String, trimLeftWS s = nameStr n ++ t := by
  unfold tableKeyword keyword
  rw [ List.isPrefixOf_iff_prefix]
  constructor
  · rintro ⟨t, ht⟩
    refine ⟨String.mk t, String.ext ?_⟩
    show (trimLeftWS s).data = (nameStr n ++ String.mk t).data
    rw [String.data_append]
    exact ht.symm
  · rintro ⟨t, ht⟩
    refine ⟨t.data, ?_⟩
    have h := congrArg String.data ht
    rw [String.data_append] at h
    exact h.symm

/-- C5 counterexample: the claim says every table strips a '#'-delimited
trailing comment from a data line before splitting, so the tokens before the
'#' still decode.  `Masses.Decode` does not call `delComments`: on the data
line "1 2.5#c" the stripped tokens decode to (1, 2.5), but the code fails
with a float-parse error on the token "2.5#c". -/
theorem c5_cex_masses_no_strip :
    massesDecode 1 ["", delComments "1 2.5#c"] = .ok (some [(1, ⟨25, 1⟩)], []) ∧
    massesDecode 1 ["", "1 2.5#c"] = .error (.msg "strconv.ParseFloat") := by
  exact ⟨by decide, by decide⟩

/-- C5 amended: comment stripping before field splitting happens for Atoms
and Coeffs data lines only — decoding such a line equals decoding its
comment-stripped form — while Masses and Links split the raw line, so a '#'
adjacent to a data token makes them fail where the stripped form decodes. -/
theorem c5_comment_stripping :
    (∀ (st : AtomStyle) (l : String), atomsRow st l = atomsRow st (delComments l)) ∧
    (∀ l : String, coeffsRow l = coeffsRow (delComments l)) ∧
    massesRow "1 2.5#c" ≠ massesRow (delComments "1 2.5#c") ∧
    linksRow 4 "1 1 1 2#c" ≠ linksRow 4 (delComments "1 1 1 2#c") := by
  refine ⟨fun st l => ?_, fun l => ?_, by decide, by decide⟩
  · unfold atomsRow
    rw [delComments_idem]
  · unfold coeffsRow
    rw [delComments_idem]

/-- C7: a table Key whose collection is non-null but empty encodes nothing at
all (no header line, no rows) — shown for Masses, a Coeffs table, Atoms in
both styles, and a Links table — whereas a Counter (Header) Key always
writes its "<int> <keyword>" line, zero value included (and a nil table
collection is an error, not silence). -/
theorem c7_empty_encodes_nothing :
    massesEncode (some []) = .ok "" ∧
    coeffsEncode .pairCoeffs (some []) = .ok "" ∧
    atomsEncode .full (some []) = .ok "" ∧
    atomsEncode .atomic (some []) = .ok "" ∧
    linksEncode .bonds (some []) = .ok "" ∧
    (∀ (n : Name) (v : Int),
      headerEncode n v = toString v ++ " " ++ nameStr n ++ "\n") ∧
    headerEncode .atomsNbr 0 = "0 atoms\n" ∧
    ("0 atoms\n" : String) ≠ "" ∧
    massesEncode none = .error .nilMap ∧
    atomsEncode .full none = .error .nilMap := by
  refine ⟨rfl, rfl, rfl, rfl, rfl, fun n v => rfl, by decide, by decide, rfl, rfl⟩

/-- C8 counterexample: the claim says every Key variant fails when given the
wrong number of dependency Keys — but `Links.SetKeys` enforces no arity at
all (zero Keys and five Keys both succeed), and `Atoms.SetKeys` likewise
accepts zero or five correctly-named Header Keys although it needs its two
Counters.  And the claim says Title/Counter/BoxDimension accept an empty list
yet fail when Keys are given — but they return the same non-fatal
Unsupported sentinel in both cases. -/
theorem c8_cex_links_arity_unchecked :
    linksSetKeys [] = .ok ∧
    linksSetKeys (List.replicate 5 (.header .atomsNbr)) = .ok ∧
    atomsSetKeys [] = .ok ∧
    atomsSetKeys (List.replicate 5 (.header .atomTypes)) = .ok ∧
    titleSetKeys [.header .atomsNbr] = titleSetKeys [] ∧
    headerSetKeys [.header .atomsNbr] = headerSetKeys [] ∧
    boxSetKeys [.header .atomsNbr] = boxSetKeys [] := by
  exact ⟨rfl, by decide, rfl, by decide, rfl, rfl, rfl⟩

/-- C8 amended: `SetKeys` enforces arity only for Masses and Coeffs (exactly
one Key); Links accepts any number of Header Keys, zero included, failing
only on a non-Header Key; Atoms also accepts any number, zero included, but
each Header must be named "atoms" or "atom types" — it fails on a wrongly
named or non-Header Key; Masses further requires its single Header to be
named "atom types"; Title, Counter and BoxDimension return the non-fatal
Unsupported sentinel whatever the argument list, empty or not. -/
theorem c8_setkeys_behaviour :
    (∀ ns : List Name, linksSetKeys (ns.map KeyArg.header) = .ok) ∧
    (∀ ns : List Name, (∀ n ∈ ns, n = Name.atomsNbr ∨ n = Name.atomTypes) →
      atomsSetKeys (ns.map KeyArg.header) = .ok) ∧
    (∀ args : List KeyArg, args.length ≠ 1 → massesSetKeys args = .errCount) ∧
    (∀ args : List KeyArg, args.length ≠ 1 → coeffsSetKeys args = .errCount) ∧
    massesSetKeys [.header .atomTypes] = .ok ∧
    massesSetKeys [.header .atomsNbr] = .errName ∧
    massesSetKeys [.nonHeader] = .errType ∧
    linksSetKeys [.nonHeader] = .errType ∧
    atomsSetKeys [.header .bondsNbr] = .errName ∧
    atomsSetKeys [.nonHeader] = .errType ∧
    (∀ args : List KeyArg, titleSetKeys args = .unsupported) ∧
    (∀ args : List KeyArg, headerSetKeys args = .unsupported) ∧
    (∀ args : List KeyArg, boxSetKeys args = .unsupported) := by
  refine ⟨?_, ?_, ?_, ?_, rfl, rfl, rfl, rfl, rfl, rfl,
    fun _ => rfl, fun _ => rfl, fun _ => rfl⟩
  · intro ns
    induction ns with
    | nil => rfl
    | cons hd tl ih => simpa [linksSetKeys] using ih
  · intro ns
    induction ns with
    | nil => exact fun _ => rfl
    | cons hd tl ih =>
      intro h
      have hhd := h hd (List.mem_cons_self _ _)
      show (if hd = Name.atomsNbr ∨ hd = Name.atomTypes then
        atomsSetKeys (tl.map KeyArg.header) else .errName) = .ok
      rw [if_pos hhd]
      exact ih (fun n hn => h n (List.mem_cons_of_mem _ hn))
  · intro args h
    simp [massesSetKeys, h]
  · intro args h
    simp [coeffsSetKeys, h]

/-- Witness for C8: the amended statement applied at concrete inputs — a
two-element correctly-named Header list for Atoms (the membership hypothesis
discharged by decide), the empty argument list for Masses and Coeffs (0 ≠ 1
discharges the arity hypothesis), and a singleton Header list for Links. -/
theorem c8_setkeys_behaviour_witness :
    atomsSetKeys [.header .atomsNbr, .header .atomTypes] = .ok ∧
    massesSetKeys [] = .errCount ∧
    coeffsSetKeys [] = .errCount ∧
    linksSetKeys [.header .atomsNbr] = .ok :=
  ⟨c8_setkeys_behaviour.2.1 [.atomsNbr, .atomTypes] (by decide),
   c8_setkeys_behaviour.2.2.1 [] (by decide),
   c8_setkeys_behaviour.2.2.2.1 [] (by decide),
   c8_setkeys_behaviour.1 [.atomsNbr]⟩

/-- C9: on the empty input stream `Decoder.Decode` returns success at once —
whatever the requested Names, the style, or the destination's current values
— without entering the validation pass and without assigning any field. -/
theorem c9_empty_stream_succeeds (req : List (Name × VKind)) (style : AtomStyle)
    (dst : List (Name × VKind × Value)) :
    decodeLines req style [] dst = ⟨none, dst, false⟩ := rfl

/-- C3 counterexample: the claim states `Atoms.Check` succeeds iff ids and
types are in range and the image flag is uniform; the table `{1: oneAtom}`
under atom count 2 and atom-type count 1 satisfies all three conditions, yet
`Check` fails — with a count-mismatch error, a condition the claim omits. -/
theorem c3_cex_count_matters :
    (∀ p ∈ ([(1, oneAtom)] : IMap Atom),
      (1 ≤ p.1 ∧ p.1 ≤ 2) ∧ (1 ≤ p.2.AtomType ∧ p.2.AtomType ≤ 1) ∧
        ∀ q ∈ ([(1, oneAtom)] : IMap Atom), p.2.N = q.2.N) ∧
    atomsCheck 2 1 (some [(1, oneAtom)]) = .error .count := by
  exact ⟨by decide, by decide⟩

/-- C3 amended: `Atoms.Check` on a non-nil table succeeds iff the record
count equals the atom-count Counter AND every id is in [1, atom count], every
type in [1, atom-type count], and the image flag is uniform across all
records. -/
theorem c3_atoms_check_iff (nbr types : Int) (tbl : IMap Atom) :
    atomsCheck nbr types (some tbl) = .ok () ↔
      ((tbl.length : Int) = nbr ∧
       ∀ p ∈ tbl, (1 ≤ p.1 ∧ p.1 ≤ nbr) ∧
         (1 ≤ p.2.AtomType ∧ p.2.AtomType ≤ types) ∧
         ∀ q ∈ tbl, p.2.N = q.2.N) := by
  unfold atomsCheck
  have hm : mlen (some tbl) = (tbl.length : Int) := rfl
  rw [hm]
  split_ifs with h₁ h₂
  · exact iff_of_false (by simp) (fun h => h₁ h.1)
  · -- length = nbr and length = 0: the table is empty
    have : tbl = [] := List.length_eq_zero.mp (by exact_mod_cast h₂)
    subst this
    simp only [List.not_mem_nil, false_implies, implies_true, and_true]
    exact iff_of_true (by trivial) (not_ne_iff.mp h₁)
  · -- non-empty table: the loop with the head's flag as reference
    match tbl, h₂ with
    | (id₀, a₀) :: tl, _ =>
      show atomsCheckLoop nbr types a₀.N ((id₀, a₀) :: tl) = .ok () ↔ _
      rw [atomsCheckLoop_ok_iff]
      constructor
      · intro h
        refine ⟨by omega, fun p hp => ?_⟩
        obtain ⟨hr, ht, hn⟩ := h p hp
        refine ⟨hr, ht, fun q hq => ?_⟩
        rw [hn, (h q hq).2.2]
      · intro h p hp
        obtain ⟨hr, ht, hn⟩ := h.2 p hp
        exact ⟨hr, ht, hn (id₀, a₀) (List.mem_cons_self _ _)⟩

/-- C6 counterexample: the claim says the encoder performs all programmatic
assignments before any propagation, so a requested row-count Counter always
ends up holding the table's record count whatever the field order.  The code
interleaves `Set` and `SetKeysVal` per field: processing the Atoms table
(one record) first and the "atoms" Counter (value 5) second leaves the
Counter at 5, not at the record count 1. -/
theorem c6_cex_order_dependent :
    (match encAssign [(.atoms, .amap (some [(1, oneAtom)])), (.atomsNbr, .int 5)]
        Reg.init with
     | .ok r => some (r.counter .atomsNbr)
     | .error _ => none) = some 5 ∧
    ([(1, oneAtom)] : IMap Atom).length = 1 := by
  exact ⟨by decide, by decide⟩

/-- C6 amended: `Encoder.Encode` interleaves `Set` and `SetKeysVal` per
requested field in one pass, so when a table and its row-count Counter are
both requested the Counter's final value is the last write in processing
order: the propagated record count if the Counter's field was processed
first, the programmatically assigned value if it was processed last. -/
theorem c6_interleaved_last_write (v : Int) (m : Option (IMap Atom)) :
    (match encAssign [(.atomsNbr, .int v), (.atoms, .amap m)] Reg.init with
     | .ok r => some (r.counter .atomsNbr)
     | .error _ => none) = some (mlen m) ∧
    (match encAssign [(.atoms, .amap m), (.atomsNbr, .int v)] Reg.init with
     | .ok r => some (r.counter .atomsNbr)
     | .error _ => none) = some v := by
  constructor <;> rfl

/-- C10: whenever `Decoder.Decode` fails with an error from line decoding
(malformed line, failed parse, panic) or from the end-of-stream validation
pass — any error other than the final loop's assignability error — the
destination struct is exactly as it was: fields are assigned only after every
Key's `Check` has succeeded. -/
theorem c10_error_leaves_dst_unchanged (req : List (Name × VKind))
    (style : AtomStyle) (lines : List String) (dst : List (Name × VKind × Value))
    (e : DErr) (he : (decodeLines req style lines dst).err = some e)
    (hne : ∀ n, e ≠ DErr.assignE n) :
    (decodeLines req style lines dst).dst = dst := by
  unfold decodeLines at he ⊢
  match lines with
  | [] => rfl
  | first :: rest =>
    dsimp only at he ⊢
    cases hdl : decodeLoop style rest.length
        ((keysClosure (req.map Prod.fst)).filter isHeaderKey)
        ((keysClosure (req.map Prod.fst)).filter (fun n => ¬ isHeaderKey n)) true rest
        (if (keysClosure (req.map Prod.fst)).any (· = .title) then
          { Reg.init with titleV := first } else Reg.init) with
    | error e' => rfl
    | ok r₂ =>
      rw [hdl] at he
      dsimp only at he
      dsimp only
      cases hcp : checksPass (keysClosure (req.map Prod.fst)) r₂ with
      | error ne =>
        obtain ⟨n', e'⟩ := ne
        rfl
      | ok u =>
        rw [hcp] at he
        dsimp only at he
        obtain ⟨n, hn⟩ := assignLoop_err req r₂ dst e he
        exact absurd hn (hne n)

/-- Witness for C10: requesting Masses and decoding a stream that declares
one atom type but contains no Masses section fails the validation pass with a
count mismatch, and the destination field keeps its initial nil map. -/
theorem c10_error_leaves_dst_unchanged_witness :
    (decodeLines [(.masses, .mmap)] .full ["t", "1 atom types"]
        [(.masses, .mmap, .mmap none)]).err = some (.checkE .masses .count) ∧
    (decodeLines [(.masses, .mmap)] .full ["t", "1 atom types"]
        [(.masses, .mmap, .mmap none)]).dst = [(.masses, .mmap, .mmap none)] :=
  ⟨by decide,
   c10_error_leaves_dst_unchanged [(.masses, .mmap)] .full ["t", "1 atom types"]
     [(.masses, .mmap, .mmap none)] (.checkE .masses .count) (by decide)
     (fun n h => DErr.noConfusion h)⟩

/-- C1: the round-trip claim fails on the code — not for a formatting reason
but because decoding any non-empty Atoms section panics (nil `*Atom` named
return in `AtomStyle.Decode`).  A registry with `Masses = {1: 1.0}` and
`Atoms = {1: oneAtom}` (style full) passes validation and encodes, and
decoding the encoded text with the same requested Names aborts with the nil
dereference inside the Atoms Key instead of reproducing the values. -/
theorem c1_roundtrip_panics :
    encodeFields rtFields .full =
      .ok "\n\n1 atoms\n\n1 atom types\n\nMasses\n\n1 1\n\nAtoms\n\n1 1 1 0 0 0 0\n\n" ∧
    (encodeFields rtFields .full).map
        (fun text => (decodeLines rtReq .full (splitLines text) rtDst).err) =
      .ok (some (.decodeE .atoms .nilDeref)) := by
  exact ⟨by decide, by decide⟩

end Lmpsdat
